import Mathlib

/-!
Verification of the Linux fsnotifier daemon sources
(`src/native/fsNotifier/linux/{main.cpp, util.cpp, fsnotifier.h}`).

The development shallowly embeds the program:

* C strings (`char*` contents up to the terminating NUL) are `List Char`
  (`CStr`); a NULL `char*` is `Option.none` at the use sites that can
  receive one.
* The C++ `new vector<T*>(n)` count constructor value-initializes `n`
  elements, producing `n` null pointers; it is modelled by `vector_new n
  = List.replicate n none`.
* Undefined behaviour (reading through a null pointer) is modelled by
  `Except UB`; a function that performs such a read returns `.error`.
  State and effect traces accumulated before the faulting operation are
  returned alongside, so theorems can speak about what the program did
  before the fault.
* The inotify engine (`watch`/`unwatch`, defined in a file that is not
  part of these sources) is an abstract parameter `Engine`; calls to it
  are recorded in an effect trace, as are `unwatch` calls and all
  `stdout` writes.
-/

/-- Bytes of a NUL-terminated C string (without the terminator). -/
abbrev CStr := List Char

/-- String literal to `CStr`. -/
def cs (s : String) : CStr := s.toList

/-- Models `strncmp(a, b, n) == 0` for NUL-terminated strings: compare at
most `n` characters, stopping early at the terminator of either side. -/
def cstrncmpEq : CStr → CStr → Nat → Bool
  | _, _, 0 => true
  | [], [], _ + 1 => true
  | [], _ :: _, _ + 1 => false
  | _ :: _, [], _ + 1 => false
  | a :: as, b :: bs, n + 1 => a == b && cstrncmpEq as bs n

/-- From `util.cpp`, `is_parent_path`:
`strncmp(parent_path, child_path, parent_len) == 0 &&
 (parent_len == strlen(child_path) || child_path[parent_len] == '/')`.
The index `child_path[parent_len]` is only reached when the prefix
comparison succeeded and the lengths differ, in which case it is in
bounds; `List.getD` with the NUL character as default models the read. -/
def is_parent_path (parent_path child_path : CStr) : Bool :=
  cstrncmpEq parent_path child_path parent_path.length &&
    (parent_path.length == child_path.length ||
      child_path.getD parent_path.length (Char.ofNat 0) == '/')

/-- From `util.cpp`: `INPUT_BUF_LEN`. -/
def INPUT_BUF_LEN : Nat := 2048

/-- Models one `fgets(buf, k+1, stream)` read loop: consume characters up
to and including the first newline, but at most `k` of them. Returns the
characters read and the rest of the stream. -/
def fgetsTake : Nat → List Char → List Char × List Char
  | 0, s => ([], s)
  | _ + 1, [] => ([], [])
  | k + 1, c :: s =>
    if c = '\n' then ([c], s)
    else
      let t := fgetsTake k s
      (c :: t.1, t.2)

/-- From `util.cpp`, `read_line`: `fgets` into a 2048-byte buffer;
`NULL` (modelled `none`) when `fgets` returns `NULL` (empty stream) or
`feof` is set (the stream ran out before a newline and before the buffer
filled); otherwise the buffer with a single trailing `'\n'` removed.
Returns the line (or `none`) together with the unconsumed stream. -/
def read_line (stream : List Char) : Option CStr × List Char :=
  if stream = [] then (none, [])
  else
    let t := fgetsTake (INPUT_BUF_LEN - 1) stream
    let buf := t.1
    let rest := t.2
    let eof := decide (rest = []) && !(buf.getLast? == some '\n') &&
      decide (buf.length < INPUT_BUF_LEN - 1)
    if eof then (none, rest)
    else (some (if buf.getLast? == some '\n' then buf.dropLast else buf), rest)

/-- Undefined behaviour markers: `nullParent` for the `strlen(NULL)`
inside `is_parent_path` when `register_roots` hands it a null mount
entry; `nullRootDeref` for reading `root->id` / `root->path` of a null
`watch_root*`. -/
inductive UB where
  | nullParent : UB
  | nullRootDeref : UB
deriving DecidableEq

/-- From `fsnotifier.h`: negative sentinel results of `watch`. -/
def ERR_IGNORE : Int := -1

/-- From `fsnotifier.h`: `watch` result that aborts the whole update. -/
def ERR_ABORT : Int := -3

/-- From `fsnotifier.h`: `watch` result for a root that does not exist. -/
def ERR_MISSING : Int := -4

/-- Models the C++ count constructor `new vector<T*>(n)`: `n`
value-initialized (null) pointer elements. -/
def vector_new (n : Nat) : List (Option α) := List.replicate n none

/-- From `main.cpp`: `typedef struct { char* path; int id; } watch_root`. -/
structure watch_root where
  path : CStr
  id : Int
deriving DecidableEq

/-- One item written to stdout by a single `output`/`report_event` call;
`nullFmt` records `output("%s\n", s)` applied to a null element of the
`unwatchable` vector (whatever glibc prints there is not defined
behaviour, so the item is kept abstract). -/
inductive OutItem where
  | str : List Char → OutItem
  | nullFmt : OutItem
deriving DecidableEq

/-- Concatenated bytes of the stdout trace, defined only when no
`printf("%s", NULL)` occurred. -/
def renderOut : List OutItem → Option (List Char)
  | [] => some []
  | OutItem.str s :: rest => (renderOut rest).map (fun r => s ++ r)
  | OutItem.nullFmt :: _ => none

/-- The abstract inotify engine: `watch(root, mounts)` result as a
function of the root path and the `mount_excludes` vector pointer
(`none` models passing `NULL`, as `check_missing_roots` does). -/
abbrev Engine := CStr → Option (List (Option CStr)) → Int

/-- Observable effects of a run: stdout items, `watch` calls with their
arguments, and `unwatch` calls with their ids. -/
structure Eff where
  out : List OutItem
  watchCalls : List (CStr × Option (List (Option CStr)))
  unwatchCalls : List Int
deriving DecidableEq

/-- The empty effect trace. -/
def eff0 : Eff := ⟨[], [], []⟩

/-- Append stdout items to an effect trace. -/
def emitOut (eff : Eff) (xs : List OutItem) : Eff :=
  ⟨eff.out ++ xs, eff.watchCalls, eff.unwatchCalls⟩

/-- Record a `watch` call. -/
def addWatch (eff : Eff) (c : CStr × Option (List (Option CStr))) : Eff :=
  ⟨eff.out, eff.watchCalls ++ [c], eff.unwatchCalls⟩

/-- Record an `unwatch` call. -/
def addUnwatch (eff : Eff) (i : Int) : Eff :=
  ⟨eff.out, eff.watchCalls, eff.unwatchCalls ++ [i]⟩

/-- From `main.cpp`: `UNFLATTEN(root)` strips a leading `'|'`. -/
def unflatten (root : CStr) : CStr :=
  if root.head? = some '|' then root.tail else root

/-- From `main.cpp`, `report_event`: newline bytes inside the path are
overwritten with NUL, then `<event>\n<path>\n` is written. -/
def scrub (path : CStr) : CStr :=
  path.map (fun c => if c = '\n' then Char.ofNat 0 else c)

/-- The single stdout record written by `report_event(event, path)`. -/
def report_event (event path : CStr) : OutItem :=
  OutItem.str (event ++ '\n' :: (scrub path ++ ['\n']))

/-- From `main.cpp`, `is_watchable`: special and network filesystems are
not watchable (`MNTTYPE_SWAP` is `"swap"`, `MNTTYPE_NFS` is `"nfs"`). -/
def is_watchable (fs : CStr) : Bool :=
  !(cstrncmpEq fs (cs "dev") 3 || fs == cs "proc" || fs == cs "sysfs" ||
    fs == cs "swap" ||
    (cstrncmpEq fs (cs "fuse") 4 && !(fs == cs "fuseblk")) ||
    fs == cs "cifs" || fs == cs "nfs")

/-- From `main.cpp`, `unwatchable_mounts`: start from
`new vector<char*>(20)` (20 null elements) and push the mount directory
of every mount-table entry whose type is neither `MNTTYPE_IGNORE`
(`"ignore"`) nor watchable. The mount table is the list of
`(mnt_dir, mnt_type)` pairs the OS supplies. -/
def unwatchable_mounts (mtab : List (CStr × CStr)) : List (Option CStr) :=
  mtab.foldl
    (fun acc ent =>
      if !(ent.2 == cs "ignore") && !(is_watchable ent.2) then acc ++ [some ent.1]
      else acc)
    (vector_new 20)

/-- From `main.cpp`, `register_roots`, inner mount loop for one root with
effective path `e`: walk the `mounts` vector in order; a null element is
passed to `is_parent_path` (`strlen(NULL)`, undefined behaviour); a
mount at or above `e` pushes `e` onto `unwatchable` and breaks with
`skip = true`; a mount under `e` is pushed onto both `unwatchable` and
`inner_mounts`. Returns `(skip, unwatchable, inner_mounts)`. -/
def mount_scan (e : CStr) :
    List (Option CStr) → List (Option CStr) → List (Option CStr) →
    Except UB (Bool × List (Option CStr) × List (Option CStr))
  | [], unw, inner => .ok (false, unw, inner)
  | none :: _, _, _ => .error UB.nullParent
  | some mount :: ms, unw, inner =>
    if is_parent_path mount e then .ok (true, unw ++ [some e], inner)
    else if is_parent_path e mount then
      mount_scan e ms (unw ++ [some mount]) (inner ++ [some mount])
    else mount_scan e ms unw inner

/-- From `main.cpp`, `register_roots`, one iteration of the outer loop:
skip roots whose effective path is not absolute; otherwise scan the
mounts (`inner_mounts` starts as `new vector<char*>(5)`, five null
elements); unless skipped, call `watch(new_root, inner_mounts)` and sort
its result: success or `ERR_MISSING` appends a `watch_root`,
`ERR_ABORT` makes the whole registration return `false`, any other
result except `ERR_IGNORE` pushes the effective path onto
`unwatchable`. Returns `(unwatchable, roots, eff, ok)`. -/
def register_one (eng : Engine) (root : CStr) (mounts : List (Option CStr))
    (unw : List (Option CStr)) (roots : List (Option watch_root)) (eff : Eff) :
    List (Option CStr) × List (Option watch_root) × Eff × Except UB Bool :=
  let e := unflatten root
  if !(e.head? = some '/') then (unw, roots, eff, .ok true)
  else
    match mount_scan e mounts unw (vector_new 5) with
    | .error err => (unw, roots, eff, .error err)
    | .ok (true, unw2, _) => (unw2, roots, eff, .ok true)
    | .ok (false, unw2, inner) =>
      let id := eng root (some inner)
      let eff2 := addWatch eff (root, some inner)
      if 0 ≤ id ∨ id = ERR_MISSING then
        (unw2, roots ++ [some ⟨root, id⟩], eff2, .ok true)
      else if id = ERR_ABORT then (unw2, roots, eff2, .ok false)
      else if id = ERR_IGNORE then (unw2, roots, eff2, .ok true)
      else (unw2 ++ [some e], roots, eff2, .ok true)

/-- From `main.cpp`, `register_roots`: fold `register_one` over the added
roots (in the `std::set` iteration order, which the input list
represents), stopping on abort or undefined behaviour. -/
def register_roots (eng : Engine) :
    List CStr → List (Option CStr) → List (Option CStr) →
    List (Option watch_root) → Eff →
    List (Option CStr) × List (Option watch_root) × Eff × Except UB Bool
  | [], unw, _, roots, eff => (unw, roots, eff, .ok true)
  | r :: rest, unw, mounts, roots, eff =>
    match register_one eng r mounts unw roots eff with
    | (unw2, roots2, eff2, .ok true) =>
      register_roots eng rest unw2 mounts roots2 eff2
    | other => other

/-- From `main.cpp`, `unregister_roots`, the pop loop: pop roots from the
back; reading `root->path` of a null element is undefined behaviour; a
root whose path is in `to_remove` is unwatched and freed, any other is
pushed onto `temp`. The argument list is the roots vector already
reversed (pop order). -/
def unreg_scan (to_remove : List CStr) :
    List (Option watch_root) → List (Option watch_root) → Eff →
    List (Option watch_root) × Eff × Except UB Unit
  | [], temp, eff => (temp, eff, .ok ())
  | none :: _, temp, eff => (temp, eff, .error UB.nullRootDeref)
  | some r :: rest, temp, eff =>
    if to_remove.contains r.path then
      unreg_scan to_remove rest temp (addUnwatch eff r.id)
    else unreg_scan to_remove rest (temp ++ [some r]) eff

/-- From `main.cpp`, `unregister_roots`: nothing to do when `to_remove`
is empty; otherwise `temp` starts as `new vector<watch_root*>(size)`
(null elements), the pop loop runs, and the final back-to-front transfer
of `temp` into `roots` reverses `temp`. -/
def unregister_roots (to_remove : List CStr) (roots : List (Option watch_root))
    (eff : Eff) : List (Option watch_root) × Eff × Except UB Unit :=
  if to_remove.length = 0 then (roots, eff, .ok ())
  else
    match unreg_scan to_remove roots.reverse (vector_new roots.length) eff with
    | (temp, eff2, res) => (temp.reverse, eff2, res)

/-- The two global variables of `main.cpp`: the `roots` vector and the
`roots_as_paths` set (represented as the list of its elements in
iteration order). -/
structure DaemonState where
  roots : List (Option watch_root)
  roots_as_paths : List CStr
deriving DecidableEq

/-- From `main.cpp`, `main`: `roots = new vector<watch_root*>(20)` and an
empty path set. -/
def initialState : DaemonState := ⟨vector_new 20, []⟩

/-- The UNWATCHEABLE block of `update_roots` lines 338-344: header, one
`output("%s\n", ...)` per element of the `unwatchable` vector (null
elements included), terminator. -/
def emit_unwatchable_block (unw : List (Option CStr)) (eff : Eff) : Eff :=
  emitOut eff
    ([OutItem.str (cs "UNWATCHEABLE\n")] ++
      unw.map (fun u => match u with
        | some s => OutItem.str (s ++ ['\n'])
        | none => OutItem.nullFmt) ++
      [OutItem.str (cs "#\n")])

/-- From `main.cpp`, `update_roots`: the `{"/"}` refusal branch, the
mount-table read, the two set differences, registration, unregistration,
the UNWATCHEABLE block, and the replacement of `roots_as_paths`.
`mtab` is the opened mount table (the `mounts == NULL` open-failure path
is an environment failure outside these claims). Returns the new state,
the effects, and the boolean result (or the undefined behaviour that
aborted the run). -/
def update_roots (eng : Engine) (mtab : List (CStr × CStr))
    (st : DaemonState) (new_roots : List CStr) (eff : Eff) :
    DaemonState × Eff × Except UB Bool :=
  if new_roots.length == 1 && new_roots.contains (cs "/") then
    let eff1 := emitOut eff [OutItem.str (cs "UNWATCHEABLE\n/\n#\n")]
    match unregister_roots st.roots_as_paths st.roots eff1 with
    | (roots2, eff2, .ok _) => (⟨roots2, []⟩, eff2, .ok true)
    | (roots2, eff2, .error err) => (⟨roots2, st.roots_as_paths⟩, eff2, .error err)
  else
    let mounts := unwatchable_mounts mtab
    let to_add := new_roots.filter (fun p => !(st.roots_as_paths.contains p))
    let to_remove := st.roots_as_paths.filter (fun p => !(new_roots.contains p))
    match register_roots eng to_add (vector_new 20) mounts st.roots eff with
    | (_, roots2, eff2, .ok false) => (⟨roots2, st.roots_as_paths⟩, eff2, .ok false)
    | (_, roots2, eff2, .error err) => (⟨roots2, st.roots_as_paths⟩, eff2, .error err)
    | (unw, roots2, eff2, .ok true) =>
      match unregister_roots to_remove roots2 eff2 with
      | (roots3, eff3, .error err) => (⟨roots3, st.roots_as_paths⟩, eff3, .error err)
      | (roots3, eff3, .ok _) =>
        let eff4 := emit_unwatchable_block unw eff3
        (⟨roots3, new_roots⟩, eff4, .ok true)

/-- From `main.cpp`, `check_missing_roots`: for every element of the
roots vector (reading `root->id` of a null element is undefined
behaviour), a root with negative id whose effective path now stats
successfully gets `root->id = watch(root->path, NULL)` and CREATE and
CHANGE records for the effective path, unconditionally on the `watch`
result. `statOk` models `stat(...) == 0`. -/
def check_missing_roots (eng : Engine) (statOk : CStr → Bool) :
    List (Option watch_root) → Eff →
    List (Option watch_root) × Eff × Except UB Unit
  | [], eff => ([], eff, .ok ())
  | none :: _, eff => ([], eff, .error UB.nullRootDeref)
  | some r :: rest, eff =>
    if r.id < 0 then
      if statOk (unflatten r.path) then
        let id2 := eng r.path none
        let eff2 := emitOut (addWatch eff (r.path, none))
          [report_event (cs "CREATE") (unflatten r.path),
           report_event (cs "CHANGE") (unflatten r.path)]
        let t := check_missing_roots eng statOk rest eff2
        (some ⟨r.path, id2⟩ :: t.1, t.2.1, t.2.2)
      else
        let t := check_missing_roots eng statOk rest eff
        (some r :: t.1, t.2.1, t.2.2)
    else
      let t := check_missing_roots eng statOk rest eff
      (some r :: t.1, t.2.1, t.2.2)

/-- From `main.cpp`, `check_root_removal`: for every element of the roots
vector (null dereference on null elements), a root with non-negative id
whose effective path equals the event path is unwatched, its id set to
`-1`, and a DELETE record emitted for the event path. -/
def check_root_removal (path : CStr) :
    List (Option watch_root) → Eff →
    List (Option watch_root) × Eff × Except UB Unit
  | [], eff => ([], eff, .ok ())
  | none :: _, eff => ([], eff, .error UB.nullRootDeref)
  | some r :: rest, eff =>
    if 0 ≤ r.id ∧ path = unflatten r.path then
      let eff2 := emitOut (addUnwatch eff r.id) [report_event (cs "DELETE") path]
      let t := check_root_removal path rest eff2
      (some ⟨r.path, -1⟩ :: t.1, t.2.1, t.2.2)
    else
      let t := check_root_removal path rest eff
      (some r :: t.1, t.2.1, t.2.2)

/-- A constant engine answer, used to instantiate theorems. -/
def engineConst (k : Int) : Engine := fun _ _ => k

/-- Unfolding of `is_parent_path` on two non-empty strings. -/
theorem is_parent_path_cons_cons (a b : Char) (p c : List Char) :
    is_parent_path (a :: p) (b :: c) = ((a == b) && is_parent_path p c) := by
  simp only [is_parent_path, cstrncmpEq, List.length_cons, List.getD_cons_succ,
    Bool.and_assoc]
  have h : ((p.length + 1 : Nat) == c.length + 1) = (p.length == c.length) := by simp
  rw [h]

/-- The characterization of `is_parent_path`: true exactly when the child
equals the parent or extends it past a `'/'`. -/
theorem is_parent_path_iff (p c : CStr) :
    is_parent_path p c = true ↔ (c = p ∨ (p ++ ['/']) <+: c) := by
  induction p generalizing c with
  | nil =>
    cases c with
    | nil => simp [show is_parent_path [] [] = true from rfl]
    | cons b c' =>
      have h : is_parent_path [] (b :: c') = (b == '/') := rfl
      rw [h]
      simp only [List.nil_append, beq_iff_eq, List.cons_prefix_cons,
        List.nil_prefix, and_true]
      constructor
      · intro hb
        exact Or.inr hb.symm
      · rintro (h2 | h2)
        · exact absurd h2 (List.cons_ne_nil _ _)
        · exact h2.symm
  | cons a p' ih =>
    cases c with
    | nil =>
      have h : is_parent_path (a :: p') [] = false := rfl
      rw [h]
      simp [List.prefix_nil]
    | cons b c' =>
      rw [is_parent_path_cons_cons]
      simp only [Bool.and_eq_true, beq_iff_eq, ih, List.cons_append,
        List.cons_prefix_cons, List.cons.injEq]
      constructor
      · rintro ⟨rfl, h | h⟩
        · exact Or.inl ⟨rfl, h⟩
        · exact Or.inr ⟨rfl, h⟩
      · rintro (⟨rfl, rfl⟩ | ⟨rfl, h⟩)
        · exact ⟨rfl, Or.inl rfl⟩
        · exact ⟨rfl, Or.inr h⟩

/-- Every path is its own parent under `is_parent_path`. -/
theorem is_parent_path_self (p : CStr) : is_parent_path p p = true :=
  (is_parent_path_iff p p).mpr (Or.inl rfl)

/-- Behaviour of the `fgets` model on a stream whose first line fits the
buffer. -/
theorem fgetsTake_line (line rest : List Char) (hnl : '\n' ∉ line) :
    ∀ k, line.length < k →
      fgetsTake k (line ++ '\n' :: rest) = (line ++ ['\n'], rest) := by
  induction line with
  | nil =>
    intro k hk
    match k, hk with
    | k' + 1, _ => simp [fgetsTake]
  | cons c l ih =>
    intro k hk
    match k, hk with
    | k' + 1, hk =>
      have hc : ¬ (c = '\n') := fun h => hnl (h ▸ List.mem_cons_self c l)
      have hl : '\n' ∉ l := fun h => hnl (List.mem_cons_of_mem c h)
      have hlen : l.length < k' := by
        simp only [List.length_cons] at hk
        omega
      simp [fgetsTake, hc, ih hl k' hlen]

/-- `read_line` on a stream whose first line fits the buffer returns that
line with only the newline trimmed. -/
theorem read_line_ok (line rest : List Char) (hnl : '\n' ∉ line)
    (hlen : line.length ≤ 2046) :
    read_line (line ++ '\n' :: rest) = (some line, rest) := by
  have hne : line ++ '\n' :: rest ≠ [] := by simp
  have ht : fgetsTake (INPUT_BUF_LEN - 1) (line ++ '\n' :: rest) =
      (line ++ ['\n'], rest) := by
    apply fgetsTake_line line rest hnl
    simp only [INPUT_BUF_LEN]
    omega
  rw [read_line, if_neg hne]
  simp only [ht, List.getLast?_concat]
  simp [List.dropLast_concat]

/-- The accumulating loop of `unwatchable_mounts` only ever appends. -/
theorem foldl_push_filter (p : (CStr × CStr) → Bool) :
    ∀ (l : List (CStr × CStr)) (acc : List (Option CStr)),
      l.foldl (fun a ent => if p ent then a ++ [some ent.1] else a) acc =
        acc ++ (l.filter p).map (fun ent => some ent.1) := by
  intro l
  induction l with
  | nil => simp
  | cons ent l ih =>
    intro acc
    by_cases h : p ent = true
    · simp [List.filter_cons, h, ih]
    · simp only [Bool.not_eq_true] at h
      simp [List.filter_cons, h, ih]

/-- `unwatchable_mounts` is twenty null elements followed by the genuine
unwatchable mount directories. -/
theorem unwatchable_mounts_eq (mtab : List (CStr × CStr)) :
    unwatchable_mounts mtab =
      List.replicate 20 none ++
        (mtab.filter
          (fun ent => !(ent.2 == cs "ignore") && !(is_watchable ent.2))).map
          (fun ent => some ent.1) := by
  rw [unwatchable_mounts, vector_new,
    foldl_push_filter (fun ent => !(ent.2 == cs "ignore") && !(is_watchable ent.2))]

/-- The mounts vector always starts with a null element. -/
theorem unwatchable_mounts_head (mtab : List (CStr × CStr)) :
    ∃ t, unwatchable_mounts mtab = none :: t := by
  rw [unwatchable_mounts_eq, show (20 : Nat) = 19 + 1 from rfl,
    List.replicate_succ, List.cons_append]
  exact ⟨_, rfl⟩

/-- Mount scan when no mount lies at or above the effective path: no
skip, and every mount strictly below is pushed onto both vectors. -/
theorem mount_scan_no_skip (e : CStr) :
    ∀ (ms : List CStr) (unw inner : List (Option CStr)),
      (∀ m ∈ ms, is_parent_path m e = false) →
      mount_scan e (ms.map some) unw inner =
        .ok (false,
          unw ++ (ms.filter (fun m => is_parent_path e m)).map some,
          inner ++ (ms.filter (fun m => is_parent_path e m)).map some) := by
  intro ms
  induction ms with
  | nil =>
    intro unw inner _
    simp [mount_scan]
  | cons m ms ih =>
    intro unw inner h
    have hm : is_parent_path m e = false := h m (List.mem_cons_self m ms)
    have hrest : ∀ x ∈ ms, is_parent_path x e = false :=
      fun x hx => h x (List.mem_cons_of_mem m hx)
    by_cases h2 : is_parent_path e m = true
    · simp [mount_scan, hm, h2, List.filter_cons, ih _ _ hrest]
    · simp only [Bool.not_eq_true] at h2
      simp [mount_scan, hm, h2, List.filter_cons, ih _ _ hrest]

/-- Mount scan when some mount lies at or above the effective path: the
scan breaks with `skip = true` after pushing the effective path onto
`unwatchable`. -/
theorem mount_scan_skip (e : CStr) :
    ∀ (ms : List CStr) (unw inner : List (Option CStr)),
      (∃ m ∈ ms, is_parent_path m e = true) →
      ∃ u i, mount_scan e (ms.map some) unw inner = .ok (true, u, i) ∧
        some e ∈ u := by
  intro ms
  induction ms with
  | nil =>
    rintro unw inner ⟨m, hm, _⟩
    exact absurd hm (List.not_mem_nil m)
  | cons m ms ih =>
    rintro unw inner ⟨m0, hm0, hp⟩
    by_cases hm : is_parent_path m e = true
    · refine ⟨unw ++ [some e], inner, ?_, by simp⟩
      simp [mount_scan, hm]
    · have hm0' : m0 ∈ ms := by
        rcases List.mem_cons.mp hm0 with h | h
        · exact absurd (h ▸ hp) hm
        · exact h
      simp only [Bool.not_eq_true] at hm
      by_cases h2 : is_parent_path e m = true
      · have := ih (unw ++ [some m]) (inner ++ [some m]) ⟨m0, hm0', hp⟩
        rcases this with ⟨u, i, heq, hmem⟩
        exact ⟨u, i, by simp [mount_scan, hm, h2, heq], hmem⟩
      · simp only [Bool.not_eq_true] at h2
        have := ih unw inner ⟨m0, hm0', hp⟩
        rcases this with ⟨u, i, heq, hmem⟩
        exact ⟨u, i, by simp [mount_scan, hm, h2, heq], hmem⟩

/-- Registration aborts with the `strlen(NULL)` undefined behaviour as
soon as a root with an absolute effective path is processed against a
mounts vector that starts with a null element. -/
theorem register_roots_null_mount (eng : Engine) :
    ∀ (to_add : List CStr) (unw : List (Option CStr)) (mt : List (Option CStr))
      (roots : List (Option watch_root)) (eff : Eff),
      (∃ t, mt = none :: t) →
      (∃ r ∈ to_add, (unflatten r).head? = some '/') →
      (register_roots eng to_add unw mt roots eff).2.2.2 =
        .error UB.nullParent := by
  intro to_add
  induction to_add with
  | nil =>
    rintro unw mt roots eff _ ⟨r, hr, _⟩
    exact absurd hr (List.not_mem_nil r)
  | cons r rest ih =>
    rintro unw mt roots eff ⟨t, rfl⟩ ⟨r0, hr0, hv0⟩
    by_cases hv : (unflatten r).head? = some '/'
    · simp [register_roots, register_one, hv, mount_scan]
    · have hr0' : r0 ∈ rest := by
        rcases List.mem_cons.mp hr0 with h | h
        · exact absurd (h ▸ hv0) hv
        · exact h
      simp only [register_roots, register_one, hv]
      simp only [decide_eq_true_eq] at hv ⊢
      rw [if_pos (by simp [hv])]
      exact ih unw (none :: t) roots eff ⟨t, rfl⟩ ⟨r0, hr0', hv0⟩

/-- `check_missing_roots` faults on any roots vector containing a null
element. -/
theorem check_missing_roots_null (eng : Engine) (statOk : CStr → Bool) :
    ∀ (roots : List (Option watch_root)) (eff : Eff), none ∈ roots →
      (check_missing_roots eng statOk roots eff).2.2 =
        .error UB.nullRootDeref := by
  intro roots
  induction roots with
  | nil =>
    intro eff h
    exact absurd h (List.not_mem_nil none)
  | cons x rest ih =>
    intro eff h
    match x with
    | none => rfl
    | some r =>
      have hrest : none ∈ rest := by
        rcases List.mem_cons.mp h with h2 | h2
        · exact absurd h2.symm (by simp)
        · exact h2
      by_cases h1 : r.id < 0
      · by_cases h2 : statOk (unflatten r.path) = true
        · simp [check_missing_roots, h1, h2, ih _ hrest]
        · simp only [Bool.not_eq_true] at h2
          simp [check_missing_roots, h1, h2, ih _ hrest]
      · simp [check_missing_roots, h1, ih _ hrest]

/-- `check_root_removal` faults on any roots vector containing a null
element. -/
theorem check_root_removal_null (path : CStr) :
    ∀ (roots : List (Option watch_root)) (eff : Eff), none ∈ roots →
      (check_root_removal path roots eff).2.2 = .error UB.nullRootDeref := by
  intro roots
  induction roots with
  | nil =>
    intro eff h
    exact absurd h (List.not_mem_nil none)
  | cons x rest ih =>
    intro eff h
    match x with
    | none => rfl
    | some r =>
      have hrest : none ∈ rest := by
        rcases List.mem_cons.mp h with h2 | h2
        · exact absurd h2.symm (by simp)
        · exact h2
      by_cases h1 : 0 ≤ r.id ∧ path = unflatten r.path
      · obtain ⟨h1a, h1b⟩ := h1
        subst h1b
        simp [check_root_removal, h1a, ih _ hrest]
      · simp [check_root_removal, h1, ih _ hrest]

/-- The pop loop of `unregister_roots` faults on any roots vector
containing a null element. -/
theorem unreg_scan_null (to_remove : List CStr) :
    ∀ (l temp : List (Option watch_root)) (eff : Eff), none ∈ l →
      (unreg_scan to_remove l temp eff).2.2 = .error UB.nullRootDeref := by
  intro l
  induction l with
  | nil =>
    intro temp eff h
    exact absurd h (List.not_mem_nil none)
  | cons x rest ih =>
    intro temp eff h
    match x with
    | none => rfl
    | some r =>
      have hrest : none ∈ rest := by
        rcases List.mem_cons.mp h with h2 | h2
        · exact absurd h2.symm (by simp)
        · exact h2
      by_cases h1 : r.path ∈ to_remove
      · simp [unreg_scan, h1, ih _ _ hrest]
      · simp [unreg_scan, h1, ih _ _ hrest]

/-- `unregister_roots` faults whenever it has work to do and the roots
vector contains a null element. -/
theorem unregister_roots_null (to_remove : List CStr)
    (roots : List (Option watch_root)) (eff : Eff) (h : none ∈ roots)
    (hne : to_remove ≠ []) :
    (unregister_roots to_remove roots eff).2.2 = .error UB.nullRootDeref := by
  have hlen : ¬ (to_remove.length = 0) := by
    intro h0
    exact hne (List.length_eq_zero.mp h0)
  rw [unregister_roots, if_neg hlen]
  have hrev : none ∈ roots.reverse := List.mem_reverse.mpr h
  have := unreg_scan_null to_remove roots.reverse (vector_new roots.length) eff hrev
  match heq : unreg_scan to_remove roots.reverse (vector_new roots.length) eff with
  | (temp, eff2, res) =>
    rw [heq] at this
    simpa [heq] using this

/-- How one tick of `check_missing_roots` transforms a single root: a
MISSING root whose effective path stats successfully gets the raw
`watch` result as its new id (which may still be negative); every other
root is untouched. -/
def missing_step (eng : Engine) (statOk : CStr → Bool) (r : watch_root) :
    watch_root :=
  if r.id < 0 ∧ statOk (unflatten r.path) = true then ⟨r.path, eng r.path none⟩
  else r

/-- The stdout records one root contributes during `check_missing_roots`:
CREATE and CHANGE for a re-checked MISSING root whose stat succeeded,
independently of the `watch` result. -/
def missing_emits (statOk : CStr → Bool) (x : Option watch_root) :
    List OutItem :=
  match x with
  | some r =>
    if r.id < 0 ∧ statOk (unflatten r.path) = true then
      [report_event (cs "CREATE") (unflatten r.path),
       report_event (cs "CHANGE") (unflatten r.path)]
    else []
  | none => []

/-- The `watch` calls one root contributes during `check_missing_roots`. -/
def missing_calls (statOk : CStr → Bool) (x : Option watch_root) :
    List (CStr × Option (List (Option CStr))) :=
  match x with
  | some r =>
    if r.id < 0 ∧ statOk (unflatten r.path) = true then [(r.path, none)]
    else []
  | none => []

/-- Full characterization of `check_missing_roots` on a roots vector
without null elements. -/
theorem check_missing_roots_chr (eng : Engine) (statOk : CStr → Bool) :
    ∀ (roots : List (Option watch_root)) (eff : Eff), none ∉ roots →
      check_missing_roots eng statOk roots eff =
        (roots.map (Option.map (missing_step eng statOk)),
         ⟨eff.out ++ (roots.map (missing_emits statOk)).flatten,
          eff.watchCalls ++ (roots.map (missing_calls statOk)).flatten,
          eff.unwatchCalls⟩,
         .ok ()) := by
  intro roots
  induction roots with
  | nil =>
    intro eff _
    simp [check_missing_roots]
  | cons x rest ih =>
    intro eff h
    have hx : x ≠ none := fun hn => h (hn ▸ List.mem_cons_self x rest)
    have hrest : none ∉ rest := fun hn => h (List.mem_cons_of_mem x hn)
    match x, hx with
    | some r, _ =>
      by_cases h1 : r.id < 0
      · by_cases h2 : statOk (unflatten r.path) = true
        · have hcond : r.id < 0 ∧ statOk (unflatten r.path) = true := ⟨h1, h2⟩
          simp only [check_missing_roots, h1, h2, if_pos, if_true,
            ih _ hrest]
          simp [missing_step, missing_emits, missing_calls, hcond, emitOut,
            addWatch]
        · have hcond : ¬ (r.id < 0 ∧ statOk (unflatten r.path) = true) :=
            fun hc => h2 hc.2
          simp only [Bool.not_eq_true] at h2
          simp only [check_missing_roots, h1, h2, if_true, Bool.false_eq_true,
            if_false, ih _ hrest]
          simp [missing_step, missing_emits, missing_calls, hcond]
      · have hcond : ¬ (r.id < 0 ∧ statOk (unflatten r.path) = true) :=
          fun hc => h1 hc.1
        simp only [check_missing_roots, h1, if_false, ih _ hrest]
        simp [missing_step, missing_emits, missing_calls, hcond]

/-- How `check_root_removal` for an event path transforms a single root:
a watched root whose effective path equals the event path becomes
MISSING (id `-1`); every other root is untouched. -/
def removal_step (path : CStr) (r : watch_root) : watch_root :=
  if 0 ≤ r.id ∧ path = unflatten r.path then ⟨r.path, -1⟩ else r

/-- The `unwatch` calls one root contributes during `check_root_removal`. -/
def removal_calls (path : CStr) (x : Option watch_root) : List Int :=
  match x with
  | some r => if 0 ≤ r.id ∧ path = unflatten r.path then [r.id] else []
  | none => []

/-- The stdout records one root contributes during `check_root_removal`. -/
def removal_emits (path : CStr) (x : Option watch_root) : List OutItem :=
  match x with
  | some r =>
    if 0 ≤ r.id ∧ path = unflatten r.path then
      [report_event (cs "DELETE") path]
    else []
  | none => []

/-- Full characterization of `check_root_removal` on a roots vector
without null elements. -/
theorem check_root_removal_chr (path : CStr) :
    ∀ (roots : List (Option watch_root)) (eff : Eff), none ∉ roots →
      check_root_removal path roots eff =
        (roots.map (Option.map (removal_step path)),
         ⟨eff.out ++ (roots.map (removal_emits path)).flatten,
          eff.watchCalls,
          eff.unwatchCalls ++ (roots.map (removal_calls path)).flatten⟩,
         .ok ()) := by
  intro roots
  induction roots with
  | nil =>
    intro eff _
    simp [check_root_removal]
  | cons x rest ih =>
    intro eff h
    have hx : x ≠ none := fun hn => h (hn ▸ List.mem_cons_self x rest)
    have hrest : none ∉ rest := fun hn => h (List.mem_cons_of_mem x hn)
    match x, hx with
    | some r, _ =>
      by_cases h1 : 0 ≤ r.id ∧ path = unflatten r.path
      · simp only [check_root_removal, if_pos h1, ih _ hrest]
        simp [removal_step, removal_emits, removal_calls, h1, emitOut,
          addUnwatch]
      · simp only [check_root_removal, if_neg h1, ih _ hrest]
        simp [removal_step, removal_emits, removal_calls, h1]

/-- Helper for the C2 theorem: the effect trace and the two possible
`unwatchable` results of `register_one` after a non-skipping mount scan. -/
theorem register_one_after_scan (eng : Engine) (root : CStr)
    (mounts unw unw2 inner : List (Option CStr))
    (roots : List (Option watch_root)) (eff : Eff)
    (hv : (unflatten root).head? = some '/')
    (hscan : mount_scan (unflatten root) mounts unw (vector_new 5) =
      .ok (false, unw2, inner)) :
    (register_one eng root mounts unw roots eff).2.2.1 =
      addWatch eff (root, some inner) ∧
    ((register_one eng root mounts unw roots eff).1 = unw2 ∨
     (register_one eng root mounts unw roots eff).1 =
       unw2 ++ [some (unflatten root)]) := by
  by_cases h1 : 0 ≤ eng root (some inner) ∨ eng root (some inner) = ERR_MISSING
  · simp [register_one, hv, hscan, h1]
  · by_cases h2 : eng root (some inner) = ERR_ABORT
    · simp [register_one, hv, hscan, h1, h2, ERR_ABORT, ERR_MISSING]
    · by_cases h3 : eng root (some inner) = ERR_IGNORE
      · simp [register_one, hv, hscan, h1, h2, h3, ERR_IGNORE, ERR_MISSING,
          ERR_ABORT]
      · simp [register_one, hv, hscan, h1, h2, h3]

/-- Helper for the C2 theorem: a root under some unwatchable mount is
reported and skipped without any engine call. -/
theorem register_one_skip (eng : Engine) (root : CStr) (ms : List CStr)
    (unw : List (Option CStr)) (roots : List (Option watch_root)) (eff : Eff)
    (hv : (unflatten root).head? = some '/')
    (hex : ∃ m ∈ ms, is_parent_path m (unflatten root) = true) :
    (register_one eng root (ms.map some) unw roots eff).2.2.1 = eff ∧
    some (unflatten root) ∈
      (register_one eng root (ms.map some) unw roots eff).1 := by
  obtain ⟨u, i, hscan, hmem⟩ :=
    mount_scan_skip (unflatten root) ms unw (vector_new 5) hex
  simp [register_one, hv, hscan]
  exact hmem

/-- C1: the specification scenario (a `ROOTS` update adding one existing,
empty, mount-free directory, from the initial state) is claimed to write
exactly `UNWATCHEABLE\n#\n`. The code instead reaches
`is_parent_path(mounts->at(0), "/tmp/x")` with `mounts->at(0)` one of the
20 null elements that `new vector<char*>(20)` put into the mounts vector,
i.e. `strlen(NULL)` — undefined behaviour — and writes nothing at all:
the run faults before the `UNWATCHEABLE` block is emitted. -/
theorem c1_empty_dir_update_faults_on_null_mount_entry :
    (update_roots (engineConst 1) [] initialState [cs "/tmp/x"] eff0).2.2 =
      .error UB.nullParent ∧
    (update_roots (engineConst 1) [] initialState [cs "/tmp/x"] eff0).2.1.out =
      [] := by
  constructor <;> rfl

/-- Counterexample to C2 as stated: in a real `ROOTS` update the mount
policy never gets to act. With the mount table carrying the genuine
unwatchable mount `/mnt` (type `nfs`) at or above the added root
`/mnt/x`, the claim says the root itself is reported in the UNWATCHEABLE
block and skipped; the update instead faults — `register_roots` hands
the first of the 20 null elements of the mounts vector to
`is_parent_path` (`strlen(NULL)`) — and writes nothing, so the root is
never reported. -/
theorem c2_root_under_mount_not_reported :
    is_parent_path (cs "/mnt") (unflatten (cs "/mnt/x")) = true ∧
    (update_roots (engineConst 1) [(cs "/mnt", cs "nfs")] initialState
        [cs "/mnt/x"] eff0).2.2 = .error UB.nullParent ∧
    (update_roots (engineConst 1) [(cs "/mnt", cs "nfs")] initialState
        [cs "/mnt/x"] eff0).2.1.out = [] := by
  refine ⟨by decide, rfl, rfl⟩

/-- C2 (amended): for a mounts vector of genuine (non-null) mount paths,
the per-root loop of `register_roots` implements the claimed policy: a
mount at or above the effective path makes the root itself reported in
the `unwatchable` vector and skipped with no `Engine.watch` call;
otherwise every mount strictly under the effective path is passed to
`Engine.watch` inside the `mount_excludes` vector and reported in the
`unwatchable` vector, and no mount equal to the effective path is among
the excludes (it cannot be: equality triggers the skip branch first).
With the mounts vector the program actually builds — 20 null slots
first, see C9 — any update registering an absolute root faults before
this policy can apply. -/
theorem c2_mount_policy_per_root (eng : Engine) (root : CStr) (ms : List CStr)
    (unw : List (Option CStr)) (roots : List (Option watch_root)) (eff : Eff)
    (hv : (unflatten root).head? = some '/') :
    ((∃ m ∈ ms, is_parent_path m (unflatten root) = true) →
      (register_one eng root (ms.map some) unw roots eff).2.2.1.watchCalls =
          eff.watchCalls ∧
        some (unflatten root) ∈
          (register_one eng root (ms.map some) unw roots eff).1) ∧
    ((∀ m ∈ ms, is_parent_path m (unflatten root) = false) →
      (register_one eng root (ms.map some) unw roots eff).2.2.1.watchCalls =
          eff.watchCalls ++
            [(root, some (vector_new 5 ++
                (ms.filter (fun m => is_parent_path (unflatten root) m)).map
                  some))] ∧
        (∀ m ∈ ms, is_parent_path (unflatten root) m = true →
          some m ∈ (register_one eng root (ms.map some) unw roots eff).1 ∧
          some m ∈ vector_new 5 ++
            (ms.filter (fun m => is_parent_path (unflatten root) m)).map some ∧
          m ≠ unflatten root) ∧
        some (unflatten root) ∉ vector_new 5 ++
          (ms.filter (fun m => is_parent_path (unflatten root) m)).map some) := by
  constructor
  · intro hex
    have h := register_one_skip eng root ms unw roots eff hv hex
    exact ⟨by rw [h.1], h.2⟩
  · intro hall
    have hscan := mount_scan_no_skip (unflatten root) ms unw (vector_new 5) hall
    have hba := register_one_after_scan eng root (ms.map some) unw
      (unw ++ (ms.filter (fun m => is_parent_path (unflatten root) m)).map some)
      (vector_new 5 ++
        (ms.filter (fun m => is_parent_path (unflatten root) m)).map some)
      roots eff hv hscan
    have hneq : ∀ m ∈ ms, is_parent_path (unflatten root) m = true →
        m ≠ unflatten root := by
      intro m hm _ heq
      have hfalse := hall m hm
      rw [heq] at hfalse
      rw [is_parent_path_self] at hfalse
      exact absurd hfalse (by simp)
    refine ⟨?_, ?_, ?_⟩
    · rw [hba.1]
      rfl
    · intro m hm hpm
      refine ⟨?_, ?_, hneq m hm hpm⟩
      · have hmem : some m ∈ unw ++
            (ms.filter (fun x => is_parent_path (unflatten root) x)).map some := by
          simp only [List.mem_append, List.mem_map]
          exact Or.inr ⟨m, List.mem_filter.mpr ⟨hm, hpm⟩, rfl⟩
        rcases hba.2 with h | h
        · rw [h]
          exact hmem
        · rw [h]
          exact List.mem_append_left _ hmem
      · simp only [List.mem_append, List.mem_map]
        exact Or.inr ⟨m, List.mem_filter.mpr ⟨hm, hpm⟩, rfl⟩
    · intro hmem
      rcases List.mem_append.mp hmem with h | h
      · rw [vector_new] at h
        exact absurd (List.eq_of_mem_replicate h) (by simp)
      · rcases List.mem_map.mp h with ⟨m, hmf, hms⟩
        have h2 : m = unflatten root := by simpa using hms
        have h3 := hall m (List.mem_filter.mp hmf).1
        rw [h2, is_parent_path_self] at h3
        exact absurd h3 (by simp)

/-- Witness for C2 at a concrete root and mount list: `/r/m` is strictly
under `/r`, so the watch call receives it among the excludes. -/
theorem c2_mount_policy_per_root_witness :
    (∀ m ∈ [cs "/r/m"], is_parent_path m (unflatten (cs "/r")) = false) ∧
    (register_one (engineConst 1) (cs "/r") ([cs "/r/m"].map some) [] []
        eff0).2.2.1.watchCalls =
      eff0.watchCalls ++
        [(cs "/r", some (vector_new 5 ++
            ([cs "/r/m"].filter
              (fun m => is_parent_path (unflatten (cs "/r")) m)).map some))] :=
  ⟨by decide,
    ((c2_mount_policy_per_root (engineConst 1) (cs "/r") [cs "/r/m"] [] [] eff0
      (by decide)).2 (by decide)).1⟩

/-- The state used in the C3 theorem: one genuinely registered root
`/tmp/a` (engine id 3) behind the 20 null slots `main` put into the
roots vector. -/
def c3_state : DaemonState :=
  ⟨vector_new 20 ++ [some ⟨cs "/tmp/a", 3⟩], [cs "/tmp/a"]⟩

/-- C3: a `ROOTS` update whose new set is exactly `{"/"}` is claimed to
emit `UNWATCHEABLE\n/\n#\n`, unregister every current root, empty the
current set and return success. The code does emit the block and does
unwatch the real root (id 3), but the pop loop of `unregister_roots`
then dereferences the first of the 20 null elements of the roots vector
(`root->path`) — undefined behaviour — so it never empties the set and
never returns. -/
theorem c3_refuse_slash_update_faults_in_unregister :
    (update_roots (engineConst 1) [] c3_state [cs "/"] eff0).2.2 =
      .error UB.nullRootDeref ∧
    (update_roots (engineConst 1) [] c3_state [cs "/"] eff0).2.1.out =
      [OutItem.str (cs "UNWATCHEABLE\n/\n#\n")] ∧
    (update_roots (engineConst 1) [] c3_state [cs "/"] eff0).2.1.unwatchCalls =
      [3] ∧
    (update_roots (engineConst 1) [] c3_state [cs "/"] eff0).2.1.watchCalls =
      [] := by
  refine ⟨rfl, ?_, rfl, rfl⟩
  decide

/-- Counterexample to C4 as stated: a MISSING root whose effective path
stats successfully does not necessarily become watched — `root->id` is
assigned the raw `watch` result, which here is `ERR_MISSING` (`-4`), a
negative id, i.e. the root is still in MISSING state although the tick's
stat succeeded. -/
theorem c4_stat_success_can_leave_root_missing :
    (check_missing_roots (engineConst (-4)) (fun _ => true)
        [some ⟨cs "/tmp/x", -1⟩] eff0).1 = [some ⟨cs "/tmp/x", -4⟩] ∧
    ((-4 : Int) < 0) := by
  exact ⟨rfl, by norm_num⟩

/-- C4 (amended): on a roots vector without null elements,
`check_missing_roots` maps each root through `missing_step` and
`check_root_removal` maps each root through `removal_step`; a MISSING
root becomes watched exactly when its stat succeeds and the `watch` call
returns a non-negative id (a failed `watch` stores the negative result,
leaving the root missing); a watched root becomes MISSING (id `-1`)
exactly when the delete-self/move-self event path equals its effective
path, and its engine id is passed to `unwatch`. With the program's
actual vector (20 null slots, see C10) both operations instead fault. -/
theorem c4_root_state_transitions (eng : Engine) (statOk : CStr → Bool)
    (ev : CStr) (roots : List (Option watch_root)) (eff eff2 : Eff)
    (h : none ∉ roots) :
    (check_missing_roots eng statOk roots eff).1 =
      roots.map (Option.map (missing_step eng statOk)) ∧
    (check_root_removal ev roots eff2).1 =
      roots.map (Option.map (removal_step ev)) ∧
    (check_root_removal ev roots eff2).2.1.unwatchCalls =
      eff2.unwatchCalls ++ (roots.map (removal_calls ev)).flatten ∧
    (∀ r : watch_root, 0 ≤ (missing_step eng statOk r).id ↔
      (0 ≤ r.id ∨ (r.id < 0 ∧ statOk (unflatten r.path) = true ∧
        0 ≤ eng r.path none))) ∧
    (∀ r : watch_root, (removal_step ev r).id < 0 ↔
      (r.id < 0 ∨ (0 ≤ r.id ∧ ev = unflatten r.path))) := by
  refine ⟨?_, ?_, ?_, ?_, ?_⟩
  · rw [check_missing_roots_chr eng statOk roots eff h]
  · rw [check_root_removal_chr ev roots eff2 h]
  · rw [check_root_removal_chr ev roots eff2 h]
  · intro r
    by_cases hc : r.id < 0 ∧ statOk (unflatten r.path) = true
    · simp only [missing_step, if_pos hc]
      constructor
      · intro h2
        exact Or.inr ⟨hc.1, hc.2, h2⟩
      · rintro (h2 | ⟨_, _, h2⟩)
        · exact absurd h2 (not_le.mpr hc.1)
        · exact h2
    · simp only [missing_step, if_neg hc]
      constructor
      · intro h2
        exact Or.inl h2
      · rintro (h2 | ⟨h3, h4, _⟩)
        · exact h2
        · exact absurd ⟨h3, h4⟩ hc
  · intro r
    by_cases hc : 0 ≤ r.id ∧ ev = unflatten r.path
    · simp only [removal_step, if_pos hc]
      constructor
      · intro _
        exact Or.inr hc
      · intro _
        norm_num
    · simp only [removal_step, if_neg hc]
      constructor
      · intro h2
        exact Or.inl h2
      · rintro (h2 | h2)
        · exact h2
        · exact absurd h2 hc

/-- Witness for C4 at a concrete MISSING root whose stat succeeds. -/
theorem c4_root_state_transitions_witness :
    (none ∉ ([some ⟨cs "/x", -1⟩] : List (Option watch_root))) ∧
    (check_missing_roots (engineConst 7) (fun _ => true)
        [some ⟨cs "/x", -1⟩] eff0).1 =
      [some ⟨cs "/x", -1⟩].map
        (Option.map (missing_step (engineConst 7) (fun _ => true))) :=
  ⟨by decide,
    (c4_root_state_transitions (engineConst 7) (fun _ => true) (cs "/x")
      [some ⟨cs "/x", -1⟩] eff0 eff0 (by decide)).1⟩

/-- Counterexample to C5 as stated: the CREATE and CHANGE records are
emitted even though the `watch` call failed — here the engine returns
`ERR_CONTINUE` (`-2`), a negative id, yet both records appear on stdout.
`report_event` in `check_missing_roots` is not guarded by the `watch`
result. -/
theorem c5_create_change_emitted_despite_watch_failure :
    (check_missing_roots (engineConst (-2)) (fun _ => true)
        [some ⟨cs "/tmp/x", -1⟩] eff0).2.1.out =
      [report_event (cs "CREATE") (cs "/tmp/x"),
       report_event (cs "CHANGE") (cs "/tmp/x")] ∧
    engineConst (-2) (cs "/tmp/x") none < 0 := by
  exact ⟨by decide, by norm_num [engineConst]⟩

/-- C5 (amended): on a roots vector without null elements, each tick of
`check_missing_roots` calls `watch(root->path, NULL)` for every MISSING
root whose effective path stats successfully and emits the
`CREATE\n<path>\n` and `CHANGE\n<path>\n` records for it regardless of
the `watch` result (the emission functions do not depend on the engine
at all). With the program's actual vector (20 null slots, see C10) the
tick instead faults before reaching any root. -/
theorem c5_missing_root_emission (eng : Engine) (statOk : CStr → Bool)
    (roots : List (Option watch_root)) (eff : Eff) (h : none ∉ roots) :
    (check_missing_roots eng statOk roots eff).2.1.out =
      eff.out ++ (roots.map (missing_emits statOk)).flatten ∧
    (check_missing_roots eng statOk roots eff).2.1.watchCalls =
      eff.watchCalls ++ (roots.map (missing_calls statOk)).flatten ∧
    (∀ r : watch_root, r.id < 0 → statOk (unflatten r.path) = true →
      missing_emits statOk (some r) =
        [report_event (cs "CREATE") (unflatten r.path),
         report_event (cs "CHANGE") (unflatten r.path)] ∧
      missing_calls statOk (some r) = [(r.path, none)]) := by
  refine ⟨?_, ?_, ?_⟩
  · rw [check_missing_roots_chr eng statOk roots eff h]
  · rw [check_missing_roots_chr eng statOk roots eff h]
  · intro r h1 h2
    constructor
    · simp [missing_emits, h1, h2]
    · simp [missing_calls, h1, h2]

/-- Witness for C5 at a concrete MISSING root whose stat succeeds while
the engine fails the watch call. -/
theorem c5_missing_root_emission_witness :
    (none ∉ ([some ⟨cs "/y", -1⟩] : List (Option watch_root))) ∧
    (check_missing_roots (engineConst (-2)) (fun _ => true)
        [some ⟨cs "/y", -1⟩] eff0).2.1.out =
      eff0.out ++
        ([some ⟨cs "/y", -1⟩].map (missing_emits (fun _ => true))).flatten :=
  ⟨by decide,
    (c5_missing_root_emission (engineConst (-2)) (fun _ => true)
      [some ⟨cs "/y", -1⟩] eff0 (by decide)).1⟩

/-- C6: `is_parent_path(parent, child)` is true exactly when `child`
equals `parent` or begins with `parent` followed immediately by a `'/'`;
in particular it is reflexive, `/a` is not a parent of `/ab`, and `/a`
is a parent of `/a/b`. -/
theorem c6_is_parent_path_spec :
    (∀ p c : CStr, is_parent_path p c = true ↔
      (c = p ∨ (p ++ ['/']) <+: c)) ∧
    (∀ p : CStr, is_parent_path p p = true) ∧
    is_parent_path (cs "/a") (cs "/ab") = false ∧
    is_parent_path (cs "/a") (cs "/a/b") = true :=
  ⟨is_parent_path_iff, is_parent_path_self, by decide, by decide⟩

/-- Witness for C6: the characterization applied at a concrete pair. -/
theorem c6_is_parent_path_spec_witness :
    is_parent_path (cs "/u") (cs "/u/v") = true :=
  (c6_is_parent_path_spec.1 (cs "/u") (cs "/u/v")).mpr
    (Or.inr ⟨cs "v", by decide⟩)

/-- Counterexample to C7 as stated: updating to the current root set can
change the emitted output relative to the previous update. From the
initial state, `update_roots {"/"}` succeeds and emits exactly
`UNWATCHEABLE\n/\n#\n` (the refusal branch), leaving the current set
empty; immediately repeating the update with that same (empty) current
set takes the normal path and emits a different UNWATCHEABLE block — one
whose body is the 20 null elements of the freshly constructed
`unwatchable` vector (its rendering is not even defined behaviour) — so
the emitted output did change, although no watch or unwatch call was
made. -/
theorem c7_identical_update_changes_output :
    (update_roots (engineConst 1) [] initialState [cs "/"] eff0).2.2 =
      .ok true ∧
    (update_roots (engineConst 1) [] initialState
        [cs "/"] eff0).1.roots_as_paths = [] ∧
    renderOut (update_roots (engineConst 1) [] initialState
        [cs "/"] eff0).2.1.out = some (cs "UNWATCHEABLE\n/\n#\n") ∧
    (update_roots (engineConst 1) []
        (update_roots (engineConst 1) [] initialState [cs "/"] eff0).1 []
        eff0).2.1.watchCalls = [] ∧
    (update_roots (engineConst 1) []
        (update_roots (engineConst 1) [] initialState [cs "/"] eff0).1 []
        eff0).2.1.unwatchCalls = [] ∧
    renderOut (update_roots (engineConst 1) []
        (update_roots (engineConst 1) [] initialState [cs "/"] eff0).1 []
        eff0).2.1.out = none ∧
    renderOut (update_roots (engineConst 1) []
        (update_roots (engineConst 1) [] initialState [cs "/"] eff0).1 []
        eff0).2.1.out ≠
      renderOut (update_roots (engineConst 1) [] initialState
        [cs "/"] eff0).2.1.out := by
  refine ⟨rfl, rfl, by decide, rfl, rfl, by decide, by decide⟩

/-- C7 (amended): a `ROOTS` update whose new set has the same members as
the current set (and is not the refused `{"/"}` singleton) performs no
`Engine.watch` and no `Engine.unwatch` call, succeeds, leaves the roots
vector untouched, and emits an UNWATCHEABLE block with no genuine path
lines — only the header, the 20 null slots of the fresh `unwatchable`
vector, and the terminator. That fixed block need not equal the previous
update's output. -/
theorem c7_identical_update_no_engine_calls (eng : Engine)
    (mtab : List (CStr × CStr)) (st : DaemonState) (new_roots : List CStr)
    (eff : Eff)
    (hset : ∀ p : CStr, new_roots.contains p = st.roots_as_paths.contains p)
    (hnr : (new_roots.length == 1 && new_roots.contains (cs "/")) = false) :
    update_roots eng mtab st new_roots eff =
      (⟨st.roots, new_roots⟩,
       ⟨eff.out ++ [OutItem.str (cs "UNWATCHEABLE\n")] ++
          List.replicate 20 OutItem.nullFmt ++ [OutItem.str (cs "#\n")],
        eff.watchCalls, eff.unwatchCalls⟩,
       .ok true) := by
  have hadd : new_roots.filter (fun p => !(st.roots_as_paths.contains p)) = [] := by
    apply List.filter_eq_nil_iff.mpr
    intro p hp
    rw [← hset p]
    simp [hp]
  have hrem : st.roots_as_paths.filter (fun p => !(new_roots.contains p)) = [] := by
    apply List.filter_eq_nil_iff.mpr
    intro p hp
    rw [hset p]
    simp [hp]
  simp only [update_roots, hnr, Bool.false_eq_true, if_false, hadd, hrem]
  simp [register_roots, unregister_roots, emit_unwatchable_block, emitOut,
    vector_new, List.map_replicate, List.append_assoc]

/-- Witness for C7 at a concrete state whose current set equals the new
set `{"/a"}`. -/
theorem c7_identical_update_no_engine_calls_witness :
    update_roots (engineConst 1) [] ⟨[], [cs "/a"]⟩ [cs "/a"] eff0 =
      (⟨[], [cs "/a"]⟩,
       ⟨eff0.out ++ [OutItem.str (cs "UNWATCHEABLE\n")] ++
          List.replicate 20 OutItem.nullFmt ++ [OutItem.str (cs "#\n")],
        eff0.watchCalls, eff0.unwatchCalls⟩,
       .ok true) :=
  c7_identical_update_no_engine_calls (engineConst 1) [] ⟨[], [cs "/a"]⟩
    [cs "/a"] eff0 (fun _ => rfl) (by decide)

/-- Counterexample to C8 as stated: a line ending in CR/LF does not have
the carriage return removed — `read_line` trims only the line feed, so
the input line `ab\r\n` is returned as `ab\r`, not `ab`. -/
theorem c8_carriage_return_not_trimmed :
    (read_line (cs "ab\r\nZ")).1 = some (cs "ab\r") ∧
    (read_line (cs "ab\r\nZ")).1 ≠ some (cs "ab") := by
  decide

/-- C8 (amended): for every input line that fits the buffer, `read_line`
returns the content with only a single trailing line feed trimmed (a
carriage return before the line feed is retained), and at end-of-stream
it returns the distinguished no-line value `none`, distinct from the
empty line `some []`. -/
theorem c8_read_line_trims_only_newline (line rest : List Char)
    (hnl : '\n' ∉ line) (hlen : line.length ≤ 2046) :
    (read_line (line ++ '\n' :: rest)).1 = some line ∧
    (read_line []).1 = none ∧
    (read_line []).1 ≠ some [] := by
  refine ⟨?_, rfl, by decide⟩
  rw [read_line_ok line rest hnl hlen]

/-- Witness for C8 on the concrete line `ab\r` followed by `\n`: the
carriage return survives. -/
theorem c8_read_line_trims_only_newline_witness :
    ('\n' ∉ cs "ab\r") ∧
    (read_line (cs "ab\r" ++ '\n' :: cs "Z")).1 = some (cs "ab\r") :=
  ⟨by decide,
    (c8_read_line_trims_only_newline (cs "ab\r") (cs "Z") (by decide)
      (by decide)).1⟩

/-- C9: (i) the mounts vector built by `unwatchable_mounts` is
`new vector<char*>(20)` — 20 null elements — followed by the genuine
unwatchable mount directories; (ii) whenever a `ROOTS` update registers
at least one root with an absolute effective path against such a mounts
vector, `register_roots` hands the first null element to
`is_parent_path` as the parent argument, i.e. `strlen(NULL)` — the run
faults with that undefined behaviour; (iii) when an UNWATCHEABLE block
is emitted from an `unwatchable` vector of the constructed shape, the 20
null elements are each formatted with `printf("%s\n", NULL)` before any
genuine unwatchable path. -/
theorem c9_vector_init_null_elements :
    (∀ mtab : List (CStr × CStr),
      unwatchable_mounts mtab =
        List.replicate 20 none ++
          (mtab.filter
            (fun ent => !(ent.2 == cs "ignore") && !(is_watchable ent.2))).map
            (fun ent => some ent.1)) ∧
    (∀ (eng : Engine) (mtab : List (CStr × CStr)) (to_add : List CStr)
        (unw : List (Option CStr)) (roots : List (Option watch_root))
        (eff : Eff),
      (∃ r ∈ to_add, (unflatten r).head? = some '/') →
      (register_roots eng to_add unw (unwatchable_mounts mtab) roots
          eff).2.2.2 = .error UB.nullParent) ∧
    (∀ (xs : List CStr) (eff : Eff),
      (emit_unwatchable_block (List.replicate 20 none ++ xs.map some) eff).out =
        eff.out ++ [OutItem.str (cs "UNWATCHEABLE\n")] ++
          List.replicate 20 OutItem.nullFmt ++
          (xs.map (fun s => OutItem.str (s ++ ['\n']))) ++
          [OutItem.str (cs "#\n")]) := by
  refine ⟨unwatchable_mounts_eq, ?_, ?_⟩
  · intro eng mtab to_add unw roots eff hex
    exact register_roots_null_mount eng to_add unw (unwatchable_mounts mtab)
      roots eff (unwatchable_mounts_head mtab) hex
  · intro xs eff
    simp [emit_unwatchable_block, emitOut, List.map_append, List.map_replicate,
      List.append_assoc]

/-- Witness for C9: a single absolute root registered against the mounts
vector of an empty mount table faults with the null-parent undefined
behaviour. -/
theorem c9_vector_init_null_elements_witness :
    (∃ r ∈ [cs "/a"], (unflatten r).head? = some '/') ∧
    (register_roots (engineConst 1) [cs "/a"] [] (unwatchable_mounts []) []
        eff0).2.2.2 = .error UB.nullParent :=
  ⟨⟨cs "/a", by decide, by decide⟩,
    c9_vector_init_null_elements.2.1 (engineConst 1) [] [cs "/a"] [] [] eff0
      ⟨cs "/a", by decide, by decide⟩⟩

/-- C10: `main` constructs the global roots vector as
`new vector<watch_root*>(20)`, 20 permanent null elements; and each of
`check_missing_roots` (run on every idle tick), `check_root_removal`
(run on every delete-self/move-self event) and the removal loop of
`unregister_roots` (run whenever `to_remove` is non-empty) dereferences
every element without a null check, hence faults on any roots vector
containing a null element. -/
theorem c10_null_root_vector_slots :
    initialState.roots = List.replicate 20 none ∧
    (∀ (eng : Engine) (statOk : CStr → Bool)
        (roots : List (Option watch_root)) (eff : Eff),
      none ∈ roots →
      (check_missing_roots eng statOk roots eff).2.2 =
        .error UB.nullRootDeref) ∧
    (∀ (path : CStr) (roots : List (Option watch_root)) (eff : Eff),
      none ∈ roots →
      (check_root_removal path roots eff).2.2 = .error UB.nullRootDeref) ∧
    (∀ (to_remove : List CStr) (roots : List (Option watch_root)) (eff : Eff),
      none ∈ roots → to_remove ≠ [] →
      (unregister_roots to_remove roots eff).2.2 =
        .error UB.nullRootDeref) := by
  refine ⟨rfl, check_missing_roots_null, check_root_removal_null, ?_⟩
  intro to_remove roots eff h hne
  exact unregister_roots_null to_remove roots eff h hne

/-- Witness for C10 on the one-null-slot vector: the idle tick faults. -/
theorem c10_null_root_vector_slots_witness :
    (none ∈ ([none] : List (Option watch_root))) ∧
    (check_missing_roots (engineConst 1) (fun _ => true) [none] eff0).2.2 =
      .error UB.nullRootDeref :=
  ⟨by decide,
    c10_null_root_vector_slots.2.1 (engineConst 1) (fun _ => true) [none] eff0
      (by decide)⟩
